import Mathlib

/-!
Verification of the RICE repository's compilation-sweep and AST-similarity
subsystems against their natural-language specification.

The Python sources are shallowly embedded: pure helpers become Lean
functions on `String`/`List`; the subprocess boundary (the external
`rustc` toolchain) is a parameter of type `ToolOutcome`; file-system
effects (the ledger file, the coverage fragments, the saved match) are
explicit values threaded through the functions that the scripts mutate.
-/

/-! ## String helpers mirroring the Python built-ins used by the scripts -/

/-- Python `str.lower()` restricted to the ASCII range used by the
signature lists (`Char.toLower` lowers exactly the ASCII uppercase
letters). -/
def pyLower (s : String) : String :=
  ⟨s.data.map Char.toLower⟩

/-- Python's substring test `pat in hay`. -/
def strContains (hay pat : String) : Bool :=
  go hay.data
where
  go : List Char → Bool
  | [] => pat.data.isEmpty
  | l@(_ :: rest) => pat.data.isPrefixOf l || go rest

/-- The characters Python's `str.strip()` removes (ASCII whitespace plus
the separator control characters and the common Unicode line breaks). -/
def isPyStripSpace (c : Char) : Bool :=
  c = ' ' || c = '\t' || c = '\n' || c = '\x0b' || c = '\x0c' || c = '\r' ||
  c = '\x1c' || c = '\x1d' || c = '\x1e' || c = '\x1f' || c = '\x85' ||
  c = ' ' || c = ' ' || c = ' '

/-- Python `str.strip()`: drop leading and trailing whitespace. -/
def pyStrip (s : String) : String :=
  ⟨((s.data.dropWhile isPyStripSpace).reverse.dropWhile isPyStripSpace).reverse⟩

/-- The line-break characters recognised by Python's `str.splitlines()`
(`\r\n` is handled as a single break by `pySplitlinesAux`). -/
def isPyLineBreak (c : Char) : Bool :=
  c = '\n' || c = '\r' || c = '\x0b' || c = '\x0c' || c = '\x1c' ||
  c = '\x1d' || c = '\x1e' || c = '\x85' || c = ' ' || c = ' '

/-- Worker for `pySplitlines`: accumulates the current line (reversed)
and emits it at each line break; a trailing line without a final break
is emitted, a trailing break adds no empty line. -/
def pySplitlinesAux : List Char → List Char → List (List Char)
  | [], acc => if acc.isEmpty then [] else [acc.reverse]
  | [c], acc =>
    if isPyLineBreak c then [acc.reverse] else [(c :: acc).reverse]
  | c1 :: c2 :: rest, acc =>
    if c1 = '\r' && c2 = '\n' then acc.reverse :: pySplitlinesAux rest []
    else if isPyLineBreak c1 then acc.reverse :: pySplitlinesAux (c2 :: rest) []
    else pySplitlinesAux (c2 :: rest) (c1 :: acc)

/-- Python `str.splitlines()`. -/
def pySplitlines (s : String) : List String :=
  (pySplitlinesAux s.data []).map fun l => ⟨l⟩

/-! ## Sandboxed compiler runner — `scripts/detect.py:check_ice` -/

/-- Outcome of the `subprocess.run` call on one source unit: the process
completed with an exit code and captured streams, the timeout fired
(`subprocess.TimeoutExpired`), or spawning/running the process raised
some other exception. -/
inductive ToolOutcome : Type where
  | completed (exitCode : Int) (stderrText stdoutText : String)
  | timeout
  | spawnError (msg : String)
deriving DecidableEq

/-- The ICE signature list of `scripts/detect.py` (lines 90-96). -/
def ICE_SIGNATURES : List String :=
  ["internal compiler error",
   "thread \x27rustc\x27 panicked at",
   "Box<Any>",
   "delay_span_bug",
   "query stack during panic"]

/-- Embeds `scripts/detect.py:check_ice` (lines 61-103), with the subprocess
boundary abstracted into a `ToolOutcome`.  Returns the `(is_ice, output)`
pair: the combined output is stderr followed by stdout, the signature
test is Python's case-sensitive `in`; `TimeoutExpired` yields
`(False, "Timeout")` and any other exception `(False, "Script Error: e")`. -/
def check_ice (o : ToolOutcome) : Bool × String :=
  match o with
  | .completed _ stderrText stdoutText =>
    let output := stderrText ++ stdoutText
    (ICE_SIGNATURES.any (fun sig => strContains output sig), output)
  | .timeout => (false, "Timeout")
  | .spawnError e => (false, "Script Error: " ++ e)

/-- The keyword list of `src/tools/compiler.py:check_is_ice` (lines 6-11). -/
def ICE_KEYWORDS : List String :=
  ["thread \x27rustc\x27 panicked",
   "internal compiler error",
   "unexpectedly panicked",
   "query stack during panic"]

/-- Embeds `src/tools/compiler.py:check_is_ice` (lines 4-13): lowercases the
output and every keyword before the substring test. -/
def check_is_ice (compiler_output : String) : Bool :=
  ICE_KEYWORDS.any fun k => strContains (pyLower compiler_output) (pyLower k)

/-- The four-way classification named by the specification (§3,
`CompilationResult.classification`). -/
inductive CompClass : Type where
  | success
  | compileError
  | timeout
  | internalCompilerError
deriving DecidableEq

/-- The classification the code realises: `check_ice`'s boolean decides
`internalCompilerError`, the exit code (which `check_ice` itself never
consults) separates `success` from `compileError`, `TimeoutExpired`
gives `timeout`; a spawn failure is outside the four classes (`none`). -/
def classifyOutcome : ToolOutcome → Option CompClass
  | .timeout => some .timeout
  | .spawnError _ => none
  | .completed ec serr sout =>
    some (if (check_ice (.completed ec serr sout)).1 then .internalCompilerError
          else if ec = 0 then .success
          else .compileError)

/-- Modelled from the spec: the classification policy as the claim states
it, with the signature test performed case-insensitively. -/
def claimClassification : ToolOutcome → Option CompClass
  | .timeout => some .timeout
  | .spawnError _ => none
  | .completed ec serr sout =>
    some (if ICE_SIGNATURES.any (fun sig => strContains (pyLower (serr ++ sout)) (pyLower sig))
          then .internalCompilerError
          else if ec = 0 then .success
          else .compileError)

/-! ## Ledger loading and the resumable sweep — `scripts/detect.py` -/

/-- State of the ledger file on disk when a sweep starts: missing, read
successfully with the given text, or present but raising on read. -/
inductive LedgerRead : Type where
  | absent
  | content (text : String)
  | failure (msg : String)
deriving DecidableEq

/-- Embeds `scripts/detect.py:load_checked_files` (lines 46-59) together with the
warning it prints: a missing file gives the empty set, a readable file
gives every stripped non-blank line, any read exception is caught, warned
about and gives the empty set. -/
def load_checked_files_full : LedgerRead → List String × List String
  | .absent => ([], [])
  | .content text =>
    (((pySplitlines text).map pyStrip).filter (fun l => l ≠ ""), [])
  | .failure e => ([], ["[Warn] 读取日志文件失败: " ++ e])

/-- The loaded checked-files set (the Python function's return value). -/
def load_checked_files (r : LedgerRead) : List String :=
  (load_checked_files_full r).1

/-- The ledger file's text after the lines `lines` have been appended to
an empty file: `main` writes each recorded path as `rel_path + "\n"`. -/
def ledgerContent : List String → String
  | [] => ""
  | l :: ls => l ++ "\n" ++ ledgerContent ls

/-- A string that contains no character `splitlines` breaks on, so that
it occupies exactly one line of the ledger file. -/
def lineClean (s : String) : Bool :=
  s.data.all fun c => !isPyLineBreak c

/-- A relative path string that round-trips through the ledger file:
one line, no surrounding whitespace, non-empty. -/
def cleanPath (s : String) : Prop :=
  lineClean s = true ∧ pyStrip s = s ∧ s ≠ ""

instance (s : String) : Decidable (cleanPath s) :=
  inferInstanceAs (Decidable (lineClean s = true ∧ pyStrip s = s ∧ s ≠ ""))

/-- The checked-files set loaded back from a ledger file holding `lines`. -/
def loadedLedger (lines : List String) : List String :=
  load_checked_files (.content (ledgerContent lines))

/-- The relative paths a sweep run appends, in order: `main` (lines
154-184) visits every enumerated unit and skips exactly those whose
relative path is in the loaded set. -/
def sweepAppends (checked units : List String) : List String :=
  units.filter fun u => !checked.contains u

/-- Ledger lines after one uninterrupted run of `scripts/detect.py:main`
over `units`, starting from a ledger file holding `lines`. -/
def sweepRun (lines units : List String) : List String :=
  lines ++ sweepAppends (loadedLedger lines) units

/-- Ledger lines surviving a run killed after `k` appended lines reached
disk (the batch flushing of lines 181-184 makes the surviving portion a
prefix of the appends). -/
def sweepRunUpTo (lines units : List String) (k : Nat) : List String :=
  lines ++ (sweepAppends (loadedLedger lines) units).take k

/-- One loop iteration of `scripts/detect.py:main` (lines 154-184) for a
unit that is not in the loaded set: run `check_ice`, archive on an ICE,
then append the relative path to the ledger unconditionally.  Returns
the new ledger lines and whether the unit was archived. -/
def detectStep (lines : List String) (relPath : String) (o : ToolOutcome) :
    List String × Bool :=
  let r := check_ice o
  (lines ++ [relPath], r.1)

/-- One loop iteration of `scripts/run_coverage.py:main` (lines 151-185)
for a unit not in the loaded set: a completed compilation (line 163) and
a timeout (line 180) both record the path; the `except Exception` branch
(lines 184-185) only prints and records nothing.  Returns the new record
lines and the new in-memory processed set. -/
def covStep (recordLines processedSet : List String) (relPath : String)
    (o : ToolOutcome) : List String × List String :=
  match o with
  | .completed _ _ _ => (recordLines ++ [relPath], processedSet ++ [relPath])
  | .timeout => (recordLines ++ [relPath], processedSet ++ [relPath])
  | .spawnError _ => (recordLines, processedSet)

/-! ## Coverage fragment merging — `scripts/run_coverage.py` -/

/-- Coverage bookkeeping state: the `.profraw` fragment files currently
in `coverage_incoming`, and the cumulative index file (`none` while
`fuzzing_total.profdata` does not exist yet).  The index's contents are
modelled as the list of fragment names folded into it. -/
structure CovState : Type where
  fragments : List String
  index : Option (List String)
deriving DecidableEq

/-- Events `perform_merge_and_clean` reports: a successful merge with
the new index's size, or a logged merge failure. -/
inductive MergeEvent : Type where
  | mergeOk (newSize : Nat)
  | mergeFail
deriving DecidableEq

/-- Embeds `scripts/run_coverage.py:perform_merge_and_clean` (lines 55-95) with
the external `llvm-profdata` invocation abstracted into `toolOk`: a
no-op when no fragments are pending; on success the new index combines
the existing one (if any) with every enumerated fragment, the enumerated
fragments are removed and the new size is reported; on
`CalledProcessError` the failure is logged and nothing changes. -/
def perform_merge_and_clean (toolOk : Bool) (st : CovState) :
    CovState × List MergeEvent :=
  let profraw_files := st.fragments
  if profraw_files.isEmpty then (st, [])
  else if toolOk then
    let newIndex := st.index.getD [] ++ profraw_files
    ({ fragments := st.fragments.filter fun f => !profraw_files.contains f,
       index := some newIndex },
     [.mergeOk newIndex.length])
  else (st, [.mergeFail])

/-! ## Syntax trees — `src/tools/ast.py` -/

/-- A tree-sitter node: a type tag, the `is_named` flag, and the ordered
children.  Trees are inputs here; parsing (`ast.py:parse`) is the
external tree-sitter boundary. -/
inductive Node : Type where
  | mk : String → Bool → List Node → Node

/-- The node's type tag (`node.type`). -/
def Node.type : Node → String
  | .mk t _ _ => t

/-- The node's `is_named` flag. -/
def Node.isNamed : Node → Bool
  | .mk _ b _ => b

/-- The node's children (`node.children`). -/
def Node.children : Node → List Node
  | .mk _ _ cs => cs

mutual
/-- Decidable structural equality of nodes. -/
def nodeDecEq : (a b : Node) → Decidable (a = b)
  | .mk t x cs, .mk u y ds =>
    if ht : t = u then
      if hx : x = y then
        match nodeListDecEq cs ds with
        | .isTrue hcs => .isTrue (by rw [ht, hx, hcs])
        | .isFalse h =>
          .isFalse fun he => h (by injection he)
      else .isFalse fun he => hx (by injection he)
    else .isFalse fun he => ht (by injection he)

/-- Decidable structural equality of node lists. -/
def nodeListDecEq : (xs ys : List Node) → Decidable (xs = ys)
  | [], [] => .isTrue rfl
  | [], _ :: _ => .isFalse (by simp)
  | _ :: _, [] => .isFalse (by simp)
  | x :: xs, y :: ys =>
    match nodeDecEq x y, nodeListDecEq xs ys with
    | .isTrue h1, .isTrue h2 => .isTrue (by rw [h1, h2])
    | .isFalse h1, _ => .isFalse fun he => h1 (by injection he)
    | .isTrue _, .isFalse h2 => .isFalse fun he => h2 (by injection he)
end

instance : DecidableEq Node := nodeDecEq

mutual
/-- Embeds `ast.py:ast_depth` (lines 23-30): the `source_file` wrapper takes the
maximum of its named children's depths (0 if none); any other node is 1
plus the maximum named-child depth, or 1 at a leaf. -/
def ast_depth : Node → Nat
  | .mk t _ cs =>
    if t = "source_file" then namedDepthsMax cs
    else if cs.any Node.isNamed then 1 + namedDepthsMax cs
    else 1

/-- Maximum of `ast_depth` over the named elements of a child list
(`max(depths)` over the comprehension, 0 when empty). -/
def namedDepthsMax : List Node → Nat
  | [] => 0
  | c :: cs =>
    if c.isNamed then max (ast_depth c) (namedDepthsMax cs) else namedDepthsMax cs
end

mutual
/-- Embeds `ast.py:ast_2gram_limited` (lines 53-64) with the counter made
explicit: the returned list carries one `(parentType, childType)` entry
per `counter[...] += 1`.  A `source_file` node forwards to its named
children at the same `cur_depth`; any other node emits nothing once
`cur_depth >= max_depth`, and otherwise emits one bigram per named child
and recurses at `cur_depth + 1`.  The initial call uses `cur_depth = 1`,
the Python default. -/
def ast2gram : Node → Nat → Nat → List (String × String)
  | .mk t _ cs, maxDepth, curDepth =>
    if t = "source_file" then gramsSF cs maxDepth curDepth
    else if curDepth ≥ maxDepth then []
    else grams t cs maxDepth curDepth

/-- The `source_file` branch: recurse into named children at the same
depth. -/
def gramsSF : List Node → Nat → Nat → List (String × String)
  | [], _, _ => []
  | c :: cs, maxDepth, curDepth =>
    (if c.isNamed then ast2gram c maxDepth curDepth else []) ++
      gramsSF cs maxDepth curDepth

/-- The emitting branch: one `(ptype, c.type)` per named child `c`, then
recurse into `c` one level deeper. -/
def grams : String → List Node → Nat → Nat → List (String × String)
  | _, [], _, _ => []
  | ptype, c :: cs, maxDepth, curDepth =>
    (if c.isNamed then (ptype, c.type) :: ast2gram c maxDepth (curDepth + 1) else []) ++
      grams ptype cs maxDepth curDepth
end

mutual
/-- Embeds `ast.py:collect_candidate_roots` (lines 35-47): every node reachable
through named-child edges is collected except `source_file` wrappers.
The Python uses an explicit stack, so children are expanded last-pushed
first; the recursion below reproduces that order. -/
def collect_candidate_roots : Node → List Node
  | .mk t b cs =>
    (if t = "source_file" then [] else [.mk t b cs]) ++ collectNamed cs

/-- Stack expansion of a child list: the last child's subtree is visited
first. -/
def collectNamed : List Node → List Node
  | [] => []
  | c :: cs =>
    collectNamed cs ++ (if c.isNamed then collect_candidate_roots c else [])
end

mutual
/-- Modelled from the spec (§4.5 step 3, the wording of claim C5):
depth-bounded bigram extraction that starts at depth 0 at the given
root; every named node situated at depth `< D` emits one token per
named child and recurses into it at depth `+ 1`; a node reached at
depth `D` emits nothing. -/
def claim2gram : Node → Nat → Nat → List (String × String)
  | .mk t _ cs, maxDepth, curDepth =>
    if curDepth < maxDepth then claimGrams t cs maxDepth curDepth else []

/-- Child traversal for `claim2gram`. -/
def claimGrams : String → List Node → Nat → Nat → List (String × String)
  | _, [], _, _ => []
  | ptype, c :: cs, maxDepth, curDepth =>
    (if c.isNamed then (ptype, c.type) :: claim2gram c maxDepth (curDepth + 1) else []) ++
      claimGrams ptype cs maxDepth curDepth
end

mutual
/-- No node in the tree carries the `source_file` wrapper tag. -/
def sfFree : Node → Bool
  | .mk t _ cs => !(t = "source_file" : Bool) && sfFreeList cs

/-- Conjunction of `sfFree` over every element of a list. -/
def sfFreeList : List Node → Bool
  | [] => true
  | c :: cs => sfFree c && sfFreeList cs
end

/-! ## TF-IDF similarity and the matcher — `src/tools/ast.py` -/

/-- Embeds `ast.py:counter_to_doc` (lines 69-74): the pseudo-document of a
counter, one token `p ++ "__" ++ c` per recorded occurrence.  The
`TfidfVectorizer` tokenises it back with `token_pattern=r"[^\s]+"`, so a
document is modelled directly as its token list. -/
def counter_to_doc (c : List (String × String)) : List String :=
  c.map fun pc => pc.1 ++ "__" ++ pc.2

/-- The snippet's bigram counter in `match_and_save` (lines 95-96):
extraction from the snippet's own root with the bound set to the
snippet's depth. -/
def snippetCounter (sn : Node) : List (String × String) :=
  ast2gram sn (ast_depth sn) 1

/-- The surviving candidate counters of `match_and_save` (lines 99-108):
one per candidate root, bound `D`, empty ones discarded. -/
def candidateCounters (ft : Node) (D : Nat) : List (List (String × String)) :=
  ((collect_candidate_roots ft).map fun r => ast2gram r D 1).filter fun c => !c.isEmpty

/-- The per-query corpus (line 114): the snippet document followed by
the surviving candidate documents. -/
def corpusDocs (sn ft : Node) : List (List String) :=
  counter_to_doc (snippetCounter sn) ::
    (candidateCounters ft (ast_depth sn)).map counter_to_doc

/-- Raw term frequency of token `t` in document `d`. -/
def tf (d : List String) (t : String) : Nat :=
  d.count t

/-- Document frequency of token `t` over the corpus. -/
def df (docs : List (List String)) (t : String) : Nat :=
  docs.countP fun d => d.contains t

/-- The corpus vocabulary: every token occurring in some document. -/
def vocab (docs : List (List String)) : Finset String :=
  (docs.foldr (fun d acc => d ++ acc) []).toFinset

/-- The smoothed inverse document frequency used by scikit-learn's
`TfidfVectorizer(smooth_idf=True)`: `ln((1 + n) / (1 + df)) + 1`. -/
noncomputable def idf (docs : List (List String)) (t : String) : ℝ :=
  Real.log ((1 + docs.length) / (1 + df docs t)) + 1

/-- The (unnormalised) TF-IDF weight of token `t` for document `d`. -/
noncomputable def tfidfWeight (docs : List (List String)) (d : List String)
    (t : String) : ℝ :=
  (tf d t : ℝ) * idf docs t

/-- Inner product of two documents' TF-IDF vectors over the corpus
vocabulary. -/
noncomputable def dotW (docs : List (List String)) (d e : List String) : ℝ :=
  ∑ t ∈ vocab docs, tfidfWeight docs d t * tfidfWeight docs e t

/-- Cosine similarity of two documents' TF-IDF vectors.  The `norm="l2"`
row normalisation followed by `cosine_similarity` amounts to dividing
the raw inner product by the product of the norms; an all-zero vector is
left as zero by scikit-learn and `x / 0 = 0` here matches that. -/
noncomputable def cosineSim (docs : List (List String)) (d e : List String) : ℝ :=
  dotW docs d e / (Real.sqrt (dotW docs d d) * Real.sqrt (dotW docs e e))

/-- The similarity row of `match_and_save` (line 123): the snippet
document against every surviving candidate document. -/
noncomputable def simScores (sn ft : Node) : List ℝ :=
  (candidateCounters ft (ast_depth sn)).map fun c =>
    cosineSim (corpusDocs sn ft) (counter_to_doc (snippetCounter sn)) (counter_to_doc c)

/-- Embeds `ast.py:match_and_save` (lines 79-133) over already-parsed trees.
The returned boolean is the Python return value; the list collects the
file writes performed (`save_path` receiving `full_code` verbatim on the
matched branch, nothing otherwise). -/
noncomputable def match_and_save (sn ft : Node) (full_code save_path : String)
    (threshold : ℝ) : Bool × List (String × String) :=
  haveI := Classical.propDecidable (∃ s ∈ simScores sn ft, s ≥ threshold)
  if ast_depth sn ≤ 1 then (false, [])
  else if (candidateCounters ft (ast_depth sn)).isEmpty then (false, [])
  else if ∃ s ∈ simScores sn ft, s ≥ threshold then (true, [(save_path, full_code)])
  else (false, [])

/-! ## Helper lemmas -/

/-- Mapping a function over both lists preserves `List.isPrefixOf`. -/
theorem isPrefixOf_map_of_isPrefixOf (f : Char → Char) :
    ∀ l1 l2 : List Char, l1.isPrefixOf l2 = true → (l1.map f).isPrefixOf (l2.map f) = true := by
  intro l1
  induction l1 with
  | nil => intro l2 _; simp [List.isPrefixOf]
  | cons a as ih =>
    intro l2 h
    cases l2 with
    | nil => simp [List.isPrefixOf] at h
    | cons b bs =>
      simp only [List.isPrefixOf, Bool.and_eq_true, beq_iff_eq] at h
      simp only [List.map_cons, List.isPrefixOf, Bool.and_eq_true, beq_iff_eq]
      exact ⟨by rw [h.1], ih bs h.2⟩

/-- A substring occurrence survives lowercasing of both strings. -/
theorem strContains_pyLower_of_strContains (hay pat : String)
    (h : strContains hay pat = true) :
    strContains (pyLower hay) (pyLower pat) = true := by
  have go : ∀ l : List Char, strContains.go pat l = true →
      strContains.go (pyLower pat) (l.map Char.toLower) = true := by
    intro l
    induction l with
    | nil =>
      intro hl
      simpa [strContains.go, pyLower, List.isEmpty_iff] using
        (by simpa [strContains.go, List.isEmpty_iff] using hl : pat.data = [])
    | cons c cs ih =>
      intro hl
      simp only [strContains.go, Bool.or_eq_true] at hl
      rcases hl with hl | hl
      · have := isPrefixOf_map_of_isPrefixOf Char.toLower pat.data (c :: cs) hl
        simp only [List.map_cons] at this
        simp [strContains.go, pyLower, this]
      · have := ih hl
        simp only [List.map_cons, strContains.go, Bool.or_eq_true]
        exact Or.inr this
  have : strContains.go pat hay.data = true := h
  simpa [strContains, pyLower] using go hay.data this

/-! ## Claim C2 — runner classification -/

/-- Claim C2, counterexample: the classification is not case-insensitive.
For exit code 0 with output "INTERNAL COMPILER ERROR: unexpected panic"
a signature occurs case-insensitively (the claim demands
`InternalCompilerError` regardless of exit code), but the runner's
classification is `Success` because `check_ice`'s substring test is
case-sensitive. -/
theorem c2_classification_cex :
    claimClassification
      (.completed 0 "" "INTERNAL COMPILER ERROR: unexpected panic") =
      some CompClass.internalCompilerError ∧
    classifyOutcome
      (.completed 0 "" "INTERNAL COMPILER ERROR: unexpected panic") =
      some CompClass.success := by
  decide

/-- Claim C2, amended: with the signature test performed as Python's
case-sensitive `in`, the runner classifies `timeout` on a timeout,
`internalCompilerError` whenever a configured signature occurs verbatim
in stderr followed by stdout — regardless of exit code — and otherwise
`success` or `compileError` according to the exit code. -/
theorem c2_classification_case_sensitive (ec : Int) (serr sout : String) :
    classifyOutcome ToolOutcome.timeout = some CompClass.timeout ∧
    ((∃ sig ∈ ICE_SIGNATURES, strContains (serr ++ sout) sig = true) →
      classifyOutcome (.completed ec serr sout) = some CompClass.internalCompilerError) ∧
    ((∀ sig ∈ ICE_SIGNATURES, strContains (serr ++ sout) sig = false) →
      (ec = 0 → classifyOutcome (.completed ec serr sout) = some CompClass.success) ∧
      (ec ≠ 0 → classifyOutcome (.completed ec serr sout) = some CompClass.compileError)) := by
  refine ⟨rfl, ?_, ?_⟩
  · intro h
    have hany : ICE_SIGNATURES.any (fun sig => strContains (serr ++ sout) sig) = true :=
      List.any_eq_true.mpr (by simpa using h)
    simp [classifyOutcome, check_ice, hany]
  · intro h
    have hany : ICE_SIGNATURES.any (fun sig => strContains (serr ++ sout) sig) = false := by
      simp only [List.any_eq_false]
      intro sig hsig
      simp [h sig hsig]
    refine ⟨fun h0 => ?_, fun h0 => ?_⟩
    · simp [classifyOutcome, check_ice, hany, h0]
    · simp [classifyOutcome, check_ice, hany, h0]

/-- Witness for `c2_classification_case_sensitive`: a nonzero exit with
a plain rustc diagnostic is classified `compileError`. -/
theorem c2_classification_case_sensitive_witness :
    (∀ sig ∈ ICE_SIGNATURES,
      strContains ("error[E0308]: mismatched types" ++ "") sig = false) ∧
    classifyOutcome (.completed 1 "error[E0308]: mismatched types" "") =
      some CompClass.compileError :=
  ⟨by decide,
   ((c2_classification_case_sensitive 1 "error[E0308]: mismatched types" "").2.2
     (by decide)).2 (by decide)⟩

/-! ## Claim C3 — case-insensitive signature detection -/

/-- Claim C3, counterexample: the sweep's classifier `check_ice` is
case-sensitive.  The output "INTERNAL COMPILER ERROR: foo" contains the
signature "internal compiler error" up to letter case, yet `check_ice`
reports `is_ice = false`. -/
theorem c3_case_insensitive_cex :
    strContains (pyLower ((check_ice (.completed 1 "INTERNAL COMPILER ERROR: foo" "")).2))
        (pyLower "internal compiler error") = true ∧
    (check_ice (.completed 1 "INTERNAL COMPILER ERROR: foo" "")).1 = false := by
  decide

/-- Claim C3, amended: case-insensitive signature detection holds for
the reproduction checker `check_is_ice` (`src/tools/compiler.py`), which
lowercases both sides: any occurrence of a keyword in any letter case
makes it report an ICE.  (The sweep's `check_ice` matches
case-sensitively, see the counterexample.) -/
theorem c3_keyword_case_insensitive (output variant k : String)
    (hk : k ∈ ICE_KEYWORDS) (hv : pyLower variant = pyLower k)
    (hocc : strContains output variant = true) :
    check_is_ice output = true := by
  have h1 : strContains (pyLower output) (pyLower variant) = true :=
    strContains_pyLower_of_strContains output variant hocc
  rw [hv] at h1
  exact List.any_eq_true.mpr ⟨k, hk, h1⟩

/-- Witness for `c3_keyword_case_insensitive`: a mixed-case
"Internal Compiler Error" in the output is detected. -/
theorem c3_keyword_case_insensitive_witness :
    "internal compiler error" ∈ ICE_KEYWORDS ∧
    pyLower "Internal Compiler Error" = pyLower "internal compiler error" ∧
    strContains "note: Internal Compiler Error encountered" "Internal Compiler Error" = true ∧
    check_is_ice "note: Internal Compiler Error encountered" = true :=
  ⟨by decide, by decide, by decide,
   c3_keyword_case_insensitive "note: Internal Compiler Error encountered"
     "Internal Compiler Error" "internal compiler error"
     (by decide) (by decide) (by decide)⟩

/-! ## Claim C8 — spawn-failure reporting -/

/-- Claim C8, counterexample: a spawn failure is not reported distinctly
from the normal classifications.  The runner's entire observable result
for a spawn failure with message "boom" coincides with that of a
completed compilation whose stderr happens to be "Script Error: boom" —
an outcome classified `compileError` — so the sweep controller cannot
distinguish the two. -/
theorem c8_spawn_collision_cex :
    check_ice (.spawnError "boom") =
      check_ice (.completed 1 "Script Error: boom" "") ∧
    classifyOutcome (.completed 1 "Script Error: boom" "") =
      some CompClass.compileError := by
  decide

/-- Claim C8, amended: a spawn failure is caught and mapped to the
non-ICE result `(false, "Script Error: " ++ msg)`: it is never
classified as an ICE, carries a message distinct from the "Timeout"
sentinel, and the sweep counts the unit as processed by appending its
path to the ledger like any other outcome. -/
theorem c8_spawn_reported (e : String) (lines : List String) (u : String) :
    check_ice (.spawnError e) = (false, "Script Error: " ++ e) ∧
    (check_ice (.spawnError e)).2 ≠ "Timeout" ∧
    (detectStep lines u (.spawnError e)).1 = lines ++ [u] := by
  refine ⟨rfl, ?_, rfl⟩
  intro h
  have hlen := congrArg String.length h
  have h14 : ("Script Error: " : String).length = 14 := rfl
  have h7 : ("Timeout" : String).length = 7 := rfl
  rw [show (check_ice (.spawnError e)).2 = "Script Error: " ++ e from rfl,
    String.length_append, h14, h7] at hlen
  omega

/-- Witness for `c8_spawn_reported` at a concrete message and ledger. -/
theorem c8_spawn_reported_witness :
    check_ice (.spawnError "No such file or directory") =
      (false, "Script Error: No such file or directory") ∧
    (check_ice (.spawnError "No such file or directory")).2 ≠ "Timeout" ∧
    (detectStep ["a.rs"] "b.rs" (.spawnError "No such file or directory")).1 =
      ["a.rs"] ++ ["b.rs"] :=
  c8_spawn_reported "No such file or directory" ["a.rs"] "b.rs"

/-- The first element surviving `dropWhile` fails the predicate. -/
theorem dropWhile_head_false (p : Char → Bool) :
    ∀ (l : List Char) (b : Char) (t : List Char), l.dropWhile p = b :: t → p b = false := by
  intro l
  induction l with
  | nil => intro b t h; simp [List.dropWhile] at h
  | cons a l ih =>
    intro b t h
    by_cases hp : p a = true
    · rw [List.dropWhile_cons_of_pos hp] at h
      exact ih b t h
    · rw [List.dropWhile_cons_of_neg hp] at h
      cases h
      simpa using hp

/-- Rebuilding a string from its character data is the identity. -/
theorem string_mk_data (s : String) : (⟨s.data⟩ : String) = s := by
  cases s
  rfl

/-- Python `strip` is idempotent. -/
theorem pyStrip_pyStrip (s : String) : pyStrip (pyStrip s) = pyStrip s := by
  set p := isPyStripSpace with hp
  set A := s.data.dropWhile p with hA
  set R := A.reverse.dropWhile p with hR
  have hBdata : (pyStrip s).data = R.reverse := rfl
  have hstep1 : R.reverse.dropWhile p = R.reverse := by
    cases hBR : R.reverse with
    | nil => simp
    | cons b t =>
      have hpre : R.reverse <+: A := by
        have hsuf : R <:+ A.reverse := List.dropWhile_suffix p
        have := List.reverse_prefix.mpr hsuf
        simpa using this
      obtain ⟨u, hu⟩ := hpre
      rw [hBR] at hu
      have hbfalse : p b = false := dropWhile_head_false p s.data b (t ++ u) (by
        rw [← hA, ← hu]; simp)
      rw [List.dropWhile_cons_of_neg (by simp [hbfalse])]
  have hstep2 : R.reverse.reverse.dropWhile p = R := by
    rw [List.reverse_reverse, hR, List.dropWhile_idempotent]
  show (⟨((pyStrip s).data.dropWhile p).reverse.dropWhile p |>.reverse⟩ : String) = pyStrip s
  rw [hBdata, hstep1, hstep2]
  rfl

/-- Splitting a break-free chunk ending at a newline off `pySplitlinesAux`. -/
theorem pySplitlinesAux_chunk :
    ∀ (l rest acc : List Char), (∀ c ∈ l, isPyLineBreak c = false) →
      pySplitlinesAux (l ++ '\n' :: rest) acc =
        (acc.reverse ++ l) :: pySplitlinesAux rest [] := by
  intro l
  induction l with
  | nil =>
    intro rest acc _
    cases rest with
    | nil => simp [pySplitlinesAux, isPyLineBreak]
    | cons r rs => simp [pySplitlinesAux, isPyLineBreak]
  | cons c l ih =>
    intro rest acc hc
    have hcb : isPyLineBreak c = false := hc c (List.mem_cons_self c l)
    have hcr : ¬(c = '\r') := by
      intro hceq
      rw [hceq] at hcb
      simp [isPyLineBreak] at hcb
    have hctail : ∀ x ∈ l, isPyLineBreak x = false :=
      fun x hx => hc x (List.mem_cons_of_mem c hx)
    cases l with
    | nil =>
      have h1 : pySplitlinesAux (c :: '\n' :: rest) acc =
          pySplitlinesAux ('\n' :: rest) (c :: acc) := by
        simp [pySplitlinesAux, hcr, hcb]
      have h2 := ih rest (c :: acc) (by simp)
      simp only [List.nil_append] at h2
      simp only [List.cons_append, List.nil_append]
      rw [h1, h2]
      simp
    | cons d l2 =>
      have h1 : pySplitlinesAux (c :: d :: (l2 ++ '\n' :: rest)) acc =
          pySplitlinesAux (d :: (l2 ++ '\n' :: rest)) (c :: acc) := by
        simp [pySplitlinesAux, hcr, hcb]
      rw [List.cons_append, List.cons_append, h1]
      rw [show d :: (l2 ++ '\n' :: rest) = (d :: l2) ++ '\n' :: rest from rfl,
        ih rest (c :: acc) hctail]
      simp

/-- A ledger file written as clean newline-terminated lines reads back as
exactly those lines. -/
theorem pySplitlines_ledgerContent (lines : List String)
    (h : ∀ l ∈ lines, lineClean l = true) :
    pySplitlines (ledgerContent lines) = lines := by
  induction lines with
  | nil => rfl
  | cons l ls ih =>
    have hl : ∀ c ∈ l.data, isPyLineBreak c = false := by
      have := h l (List.mem_cons_self l ls)
      simpa [lineClean, List.all_eq_true] using this
    have hdata : (ledgerContent (l :: ls)).data =
        l.data ++ '\n' :: (ledgerContent ls).data := by
      show (l ++ "\n" ++ ledgerContent ls).data = _
      rw [String.data_append, String.data_append, List.append_assoc]
      rfl
    unfold pySplitlines
    rw [hdata, pySplitlinesAux_chunk l.data (ledgerContent ls).data [] hl]
    simp only [List.reverse_nil, List.nil_append, List.map_cons]
    rw [string_mk_data]
    have ihs : pySplitlines (ledgerContent ls) = ls :=
      ih fun x hx => h x (List.mem_cons_of_mem l hx)
    unfold pySplitlines at ihs
    rw [ihs]

/-- Loading a ledger of clean lines gives the stripped non-blank lines. -/
theorem loadedLedger_eq (lines : List String)
    (h : ∀ l ∈ lines, lineClean l = true) :
    loadedLedger lines = (lines.map pyStrip).filter (fun l => l ≠ "") := by
  have h2 := pySplitlines_ledgerContent lines h
  simp [loadedLedger, load_checked_files, load_checked_files_full, h2]

/-- Loading after appending clean paths appends them to the loaded set. -/
theorem loadedLedger_append (lines A : List String)
    (h : ∀ l ∈ lines, lineClean l = true) (hA : ∀ a ∈ A, cleanPath a) :
    loadedLedger (lines ++ A) = loadedLedger lines ++ A := by
  have hall : ∀ l ∈ lines ++ A, lineClean l = true := by
    intro l hl
    rcases List.mem_append.mp hl with hl | hl
    · exact h l hl
    · exact (hA l hl).1
  rw [loadedLedger_eq _ hall, loadedLedger_eq _ h, List.map_append, List.filter_append]
  congr 1
  have hmap : A.map pyStrip = A.map id :=
    List.map_eq_map_iff.mpr fun a ha => (hA a ha).2.1
  rw [hmap, List.map_id]
  exact List.filter_eq_self.mpr fun a ha => by simpa using (hA a ha).2.2

/-! ## Claim C10 — ledger-read failure degrades to full reprocessing -/

/-- Claim C10: a ledger read failure is caught, warned about, and yields
the empty checked set, so a sweep over any unit list skips nothing; and
entries loaded from a readable ledger are never blank and carry no
surrounding whitespace. -/
theorem c10_ledger_read_failure (e text : String) (units : List String) :
    load_checked_files (.failure e) = [] ∧
    (load_checked_files_full (.failure e)).2 = ["[Warn] 读取日志文件失败: " ++ e] ∧
    sweepAppends (load_checked_files (.failure e)) units = units ∧
    (∀ x ∈ load_checked_files (.content text), x ≠ "" ∧ pyStrip x = x) := by
  refine ⟨rfl, rfl, ?_, ?_⟩
  · simp [sweepAppends, load_checked_files, load_checked_files_full]
  · intro x hx
    simp only [load_checked_files, load_checked_files_full, List.mem_filter,
      List.mem_map, decide_eq_true_eq] at hx
    obtain ⟨⟨line, _, hxeq⟩, hne⟩ := hx
    refine ⟨hne, ?_⟩
    rw [← hxeq]
    exact pyStrip_pyStrip line

/-- Witness for `c10_ledger_read_failure`: loading a ledger with a blank
line and surrounding whitespace yields clean entries. -/
theorem c10_ledger_read_failure_witness :
    "b.rs" ∈ load_checked_files (.content "a.rs\n  \n  b.rs  \n") ∧
    ("b.rs" ≠ "" ∧ pyStrip "b.rs" = "b.rs") :=
  ⟨by decide,
   (c10_ledger_read_failure "io" "a.rs\n  \n  b.rs  \n" []).2.2.2 "b.rs" (by decide)⟩

/-! ## Claim C4 — unconditional ledgering -/

/-- Claim C4: once the runner has been invoked on a unit, the sweep
appends its relative path to the ledger regardless of the outcome —
`detect.py` appends for every outcome including timeouts and script
errors, `run_coverage.py` for completed runs and timeouts — and a later
run loads that path and never selects the unit again. -/
theorem c4_unconditional_ledgering (lines P : List String) (u : String)
    (o : ToolOutcome) (ec : Int) (serr sout : String)
    (hu : cleanPath u) (hlines : ∀ l ∈ lines, lineClean l = true) :
    (detectStep lines u o).1 = lines ++ [u] ∧
    (covStep lines P u (.completed ec serr sout)).1 = lines ++ [u] ∧
    (covStep lines P u .timeout).1 = lines ++ [u] ∧
    u ∈ loadedLedger (lines ++ [u]) ∧
    ∀ units, u ∉ sweepAppends (loadedLedger (lines ++ [u])) units := by
  have happ : loadedLedger (lines ++ [u]) = loadedLedger lines ++ [u] :=
    loadedLedger_append lines [u] hlines (by
      intro a ha
      rw [List.mem_singleton] at ha
      rw [ha]
      exact hu)
  have hmem : u ∈ loadedLedger (lines ++ [u]) := by
    rw [happ]
    exact List.mem_append_right _ (List.mem_singleton.mpr rfl)
  refine ⟨rfl, rfl, rfl, hmem, ?_⟩
  intro units hin
  have hcond := (List.mem_filter.mp hin).2
  simp only [List.contains, Bool.not_eq_true', List.elem_eq_mem,
    decide_eq_false_iff_not] at hcond
  exact hcond hmem

/-- Witness for `c4_unconditional_ledgering`: a timed-out unit is
ledgered and never reselected. -/
theorem c4_unconditional_ledgering_witness :
    cleanPath "b.rs" ∧ (∀ l ∈ ["a.rs"], lineClean l = true) ∧
    ((detectStep ["a.rs"] "b.rs" ToolOutcome.timeout).1 = ["a.rs"] ++ ["b.rs"] ∧
      "b.rs" ∈ loadedLedger (["a.rs"] ++ ["b.rs"])) :=
  ⟨⟨by decide, by decide, by decide⟩, by decide,
   (c4_unconditional_ledgering ["a.rs"] [] "b.rs" .timeout 0 "" ""
      ⟨by decide, by decide, by decide⟩ (by decide)).1,
   (c4_unconditional_ledgering ["a.rs"] [] "b.rs" .timeout 0 "" ""
      ⟨by decide, by decide, by decide⟩ (by decide)).2.2.2.1⟩

/-! ## Claim C7 — coverage merge outcome dichotomy -/

/-- Claim C7: over the fragments enumerated at trigger time, a
successful merge deletes every fragment, folds each into the cumulative
index exactly once (fragments absent from the batch keep their count),
and reports the new index's size; a failed merge leaves the state
untouched and logs the failure instead of aborting; and fragments folded
by one merge are not re-folded by a later one. -/
theorem c7_merge_dichotomy (st : CovState) (hne : st.fragments ≠ [])
    (hnd : st.fragments.Nodup) :
    ((perform_merge_and_clean true st).1.fragments = [] ∧
     (perform_merge_and_clean true st).1.index =
       some (st.index.getD [] ++ st.fragments) ∧
     (perform_merge_and_clean true st).2 =
       [.mergeOk (st.index.getD [] ++ st.fragments).length] ∧
     (∀ f ∈ st.fragments,
       ((perform_merge_and_clean true st).1.index.getD []).count f =
         (st.index.getD []).count f + 1) ∧
     (∀ f, f ∉ st.fragments →
       ((perform_merge_and_clean true st).1.index.getD []).count f =
         (st.index.getD []).count f)) ∧
    perform_merge_and_clean false st = (st, [MergeEvent.mergeFail]) ∧
    (∀ more : List String, (∀ f ∈ st.fragments, f ∉ more) →
      ∀ f ∈ st.fragments,
        ((perform_merge_and_clean true
            { fragments := more,
              index := (perform_merge_and_clean true st).1.index }).1.index.getD []).count f =
          (st.index.getD []).count f + 1) := by
  have hne' : st.fragments.isEmpty = false := by
    cases h : st.fragments with
    | nil => exact absurd h hne
    | cons a l => rfl
  have hfrag : (perform_merge_and_clean true st).1.fragments = [] := by
    simp only [perform_merge_and_clean, hne', Bool.false_eq_true, if_false, if_true]
    exact List.filter_eq_nil_iff.mpr fun f hf => by
      simp [List.elem_eq_mem, List.contains, hf]
  have hidx : (perform_merge_and_clean true st).1.index =
      some (st.index.getD [] ++ st.fragments) := by
    simp [perform_merge_and_clean, hne']
  have hev : (perform_merge_and_clean true st).2 =
      [MergeEvent.mergeOk (st.index.getD [] ++ st.fragments).length] := by
    simp [perform_merge_and_clean, hne']
  refine ⟨⟨hfrag, hidx, hev, ?_, ?_⟩, ?_, ?_⟩
  · intro f hf
    rw [hidx]
    simp only [Option.getD_some, List.count_append]
    rw [List.count_eq_one_of_mem hnd hf]
  · intro f hf
    rw [hidx]
    simp only [Option.getD_some, List.count_append]
    rw [List.count_eq_zero.mpr hf]
    omega
  · simp [perform_merge_and_clean, hne']
  · intro more hdisj f hf
    rw [hidx]
    by_cases hm : more = []
    · subst hm
      simp only [perform_merge_and_clean, List.isEmpty_nil, if_true]
      simp only [Option.getD_some, List.count_append]
      rw [List.count_eq_one_of_mem hnd hf]
    · have hm' : more.isEmpty = false := by
        cases h : more with
        | nil => exact absurd h hm
        | cons a l => rfl
      simp only [perform_merge_and_clean, hm', Bool.false_eq_true, if_false, if_true]
      simp only [Option.getD_some, List.count_append]
      rw [List.count_eq_one_of_mem hnd hf, List.count_eq_zero.mpr (hdisj f hf)]

/-- Witness for `c7_merge_dichotomy` on a two-fragment state with an
existing index. -/
theorem c7_merge_dichotomy_witness :
    (["cov_9_a.profraw", "cov_9_b.profraw"] ≠ ([] : List String)) ∧
    (["cov_9_a.profraw", "cov_9_b.profraw"] : List String).Nodup ∧
    ((perform_merge_and_clean true
        ⟨["cov_9_a.profraw", "cov_9_b.profraw"], some ["cov_0_z.profraw"]⟩).1.index =
      some (["cov_0_z.profraw"] ++ ["cov_9_a.profraw", "cov_9_b.profraw"]) ∧
     perform_merge_and_clean false
        ⟨["cov_9_a.profraw", "cov_9_b.profraw"], some ["cov_0_z.profraw"]⟩ =
      (⟨["cov_9_a.profraw", "cov_9_b.profraw"], some ["cov_0_z.profraw"]⟩,
       [MergeEvent.mergeFail])) :=
  ⟨by decide, by decide,
   (c7_merge_dichotomy ⟨["cov_9_a.profraw", "cov_9_b.profraw"], some ["cov_0_z.profraw"]⟩
      (by decide) (by decide)).1.2.1,
   (c7_merge_dichotomy ⟨["cov_9_a.profraw", "cov_9_b.profraw"], some ["cov_0_z.profraw"]⟩
      (by decide) (by decide)).2.1⟩

/-- Membership in a sweep's append list: enumerated and not yet checked. -/
theorem mem_sweepAppends (checked units : List String) (u : String) :
    u ∈ sweepAppends checked units ↔ u ∈ units ∧ u ∉ checked := by
  simp [sweepAppends, List.mem_filter, List.contains, List.elem_eq_mem]

/-! ## Claim C1 — idempotent resume of the sweep -/

/-- Claim C1: for any initial ledger, any duplicate-free unit
enumeration, any interruption point `k`, and any re-enumeration order,
the interrupted run plus the resumed run ledger each not-yet-checked
unit exactly once, never re-ledger a unit the loaded ledger already
records, and the set loaded from the final ledger equals the one
produced by a single uninterrupted run. -/
theorem c1_idempotent_resume (L units units2 : List String) (k : Nat)
    (hnd : units.Nodup) (hclean : ∀ u ∈ units, cleanPath u)
    (hL : ∀ l ∈ L, lineClean l = true) (hperm : units2.Perm units) :
    (∀ u ∈ units, u ∉ loadedLedger L →
      ((sweepAppends (loadedLedger L) units).take k ++
        sweepAppends (loadedLedger (sweepRunUpTo L units k)) units2).count u = 1) ∧
    (∀ u ∈ units, u ∈ loadedLedger L →
      ((sweepAppends (loadedLedger L) units).take k ++
        sweepAppends (loadedLedger (sweepRunUpTo L units k)) units2).count u = 0) ∧
    (∀ x, x ∈ loadedLedger (sweepRunUpTo L units k ++
            sweepAppends (loadedLedger (sweepRunUpTo L units k)) units2) ↔
          x ∈ loadedLedger (sweepRun L units)) := by
  set S0 := loadedLedger L with hS0
  set A0 := sweepAppends S0 units with hA0
  set A1 := A0.take k with hA1
  have hA1sub : A1.Sublist A0 := List.take_sublist k A0
  have hA0sub : ∀ a ∈ A0, a ∈ units := by
    intro a ha
    exact ((mem_sweepAppends S0 units a).mp ha).1
  have hA1mem : ∀ a ∈ A1, a ∈ units := fun a ha => hA0sub a (hA1sub.mem ha)
  have hA0nd : A0.Nodup := hnd.filter _
  have hA1nd : A1.Nodup := hA0nd.sublist hA1sub
  have h2nd : units2.Nodup := (hperm.nodup_iff).mpr hnd
  have hpart : sweepRunUpTo L units k = L ++ A1 := rfl
  have hS1 : loadedLedger (sweepRunUpTo L units k) = S0 ++ A1 := by
    rw [hpart]
    exact loadedLedger_append L A1 hL fun a ha => hclean a (hA1mem a ha)
  set A2 := sweepAppends (loadedLedger (sweepRunUpTo L units k)) units2 with hA2
  have hA2iff : ∀ a, a ∈ A2 ↔ a ∈ units2 ∧ (a ∉ S0 ∧ a ∉ A1) := by
    intro a
    rw [hA2, mem_sweepAppends, hS1]
    simp [List.mem_append, not_or]
  have hA2nd : A2.Nodup := h2nd.filter _
  refine ⟨?_, ?_, ?_⟩
  · intro u hu hunew
    rw [List.count_append]
    by_cases h1 : u ∈ A1
    · have hc1 : A1.count u = 1 := List.count_eq_one_of_mem hA1nd h1
      have hc2 : A2.count u = 0 := by
        apply List.count_eq_zero.mpr
        intro hin
        exact ((hA2iff u).mp hin).2.2 h1
      omega
    · have hc1 : A1.count u = 0 := List.count_eq_zero.mpr h1
      have hin2 : u ∈ A2 := (hA2iff u).mpr ⟨hperm.mem_iff.mpr hu, hunew, h1⟩
      have hc2 : A2.count u = 1 := List.count_eq_one_of_mem hA2nd hin2
      omega
  · intro u hu huold
    rw [List.count_append]
    have h1 : u ∉ A1 := by
      intro hin
      exact ((mem_sweepAppends S0 units u).mp (hA1sub.mem hin)).2 huold
    have hc1 : A1.count u = 0 := List.count_eq_zero.mpr h1
    have hc2 : A2.count u = 0 := by
      apply List.count_eq_zero.mpr
      intro hin
      exact ((hA2iff u).mp hin).2.1 huold
    omega
  · intro x
    have hfin : loadedLedger (sweepRunUpTo L units k ++ A2) =
        (S0 ++ A1) ++ A2 := by
      rw [← hS1]
      apply loadedLedger_append
      · intro l hl
        rw [hpart] at hl
        rcases List.mem_append.mp hl with hl | hl
        · exact hL l hl
        · exact (hclean l (hA1mem l hl)).1
      · intro a ha
        exact hclean a (hperm.mem_iff.mp ((hA2iff a).mp ha).1)
    have hfull : loadedLedger (sweepRun L units) = S0 ++ A0 := by
      show loadedLedger (L ++ A0) = S0 ++ A0
      exact loadedLedger_append L A0 hL fun a ha => hclean a (hA0sub a ha)
    rw [hfin, hfull]
    simp only [List.mem_append]
    constructor
    · rintro ((hx | hx) | hx)
      · exact Or.inl hx
      · exact Or.inr (hA1sub.mem hx)
      · rcases (hA2iff x).mp hx with ⟨hx2, hxs0, hxa1⟩
        exact Or.inr ((mem_sweepAppends S0 units x).mpr ⟨hperm.mem_iff.mp hx2, hxs0⟩)
    · rintro (hx | hx)
      · exact Or.inl (Or.inl hx)
      · rcases (mem_sweepAppends S0 units x).mp hx with ⟨hxu, hxs0⟩
        by_cases h1 : x ∈ A1
        · exact Or.inl (Or.inr h1)
        · exact Or.inr ((hA2iff x).mpr ⟨hperm.mem_iff.mpr hxu, hxs0, h1⟩)

/-- Witness for `c1_idempotent_resume`: three units, one already
ledgered, interruption after one new append, resume in reversed order. -/
theorem c1_idempotent_resume_witness :
    (["old.rs", "a.rs", "b.rs"] : List String).Nodup ∧
    (∀ u ∈ (["old.rs", "a.rs", "b.rs"] : List String), cleanPath u) ∧
    (∀ l ∈ (["old.rs"] : List String), lineClean l = true) ∧
    (["b.rs", "a.rs", "old.rs"] : List String).Perm ["old.rs", "a.rs", "b.rs"] ∧
    (∀ u ∈ (["old.rs", "a.rs", "b.rs"] : List String), u ∉ loadedLedger ["old.rs"] →
      ((sweepAppends (loadedLedger ["old.rs"]) ["old.rs", "a.rs", "b.rs"]).take 1 ++
        sweepAppends (loadedLedger (sweepRunUpTo ["old.rs"] ["old.rs", "a.rs", "b.rs"] 1))
          ["b.rs", "a.rs", "old.rs"]).count u = 1) :=
  ⟨by decide, by decide, by decide, by decide,
   (c1_idempotent_resume ["old.rs"] ["old.rs", "a.rs", "b.rs"]
      ["b.rs", "a.rs", "old.rs"] 1 (by decide) (by decide) (by decide) (by decide)).1⟩

/-! ## Claim C5 — depth-bounded bigram extraction -/

/-- Claim C5, counterexample: the extraction does not start at depth 0.
With bound `D = 1` the claim's reading emits the root's child bigram
while the code emits nothing, and on a 3-chain with `D = 2` the claim's
reading emits two bigrams while the code emits only the root's. -/
theorem c5_depth_convention_cex :
    ast2gram (.mk "a" true [.mk "b" true []]) 1 1 = [] ∧
    claim2gram (.mk "a" true [.mk "b" true []]) 1 0 = [("a", "b")] ∧
    ast2gram (.mk "a" true [.mk "b" true [.mk "c" true []]]) 2 1 = [("a", "b")] ∧
    claim2gram (.mk "a" true [.mk "b" true [.mk "c" true []]]) 2 0 =
      [("a", "b"), ("b", "c")] := by
  decide

mutual
/-- On wrapper-free trees the code's extraction agrees with the claim's
procedural description once both are started at the same depth counter:
the code's initial value is 1, not 0. -/
theorem ast2gram_eq_claim2gram : ∀ (n : Node) (D cur : Nat), sfFree n = true →
    ast2gram n D cur = claim2gram n D cur
  | .mk t b cs, D, cur, h => by
    have hparts : (!decide (t = "source_file")) = true ∧ sfFreeList cs = true := by
      simpa [sfFree, Bool.and_eq_true] using h
    have ht : ¬(t = "source_file") := by simpa using hparts.1
    rcases Nat.lt_or_ge cur D with hlt | hge
    · rw [show ast2gram (.mk t b cs) D cur = grams t cs D cur by
        simp [ast2gram, ht, Nat.not_le_of_lt hlt],
        show claim2gram (.mk t b cs) D cur = claimGrams t cs D cur by
        simp [claim2gram, hlt]]
      exact grams_eq_claimGrams t cs D cur hparts.2
    · rw [show ast2gram (.mk t b cs) D cur = [] by
        simp [ast2gram, ht, hge],
        show claim2gram (.mk t b cs) D cur = [] by
        simp [claim2gram, Nat.not_lt.mpr hge]]

/-- List counterpart of `ast2gram_eq_claim2gram`. -/
theorem grams_eq_claimGrams : ∀ (p : String) (cs : List Node) (D cur : Nat),
    sfFreeList cs = true → grams p cs D cur = claimGrams p cs D cur
  | _, [], _, _, _ => rfl
  | p, c :: cs, D, cur, h => by
    have hparts : sfFree c = true ∧ sfFreeList cs = true := by
      simpa [sfFreeList, Bool.and_eq_true] using h
    show (if c.isNamed then (p, c.type) :: ast2gram c D (cur + 1) else []) ++
        grams p cs D cur =
      (if c.isNamed then (p, c.type) :: claim2gram c D (cur + 1) else []) ++
        claimGrams p cs D cur
    rw [grams_eq_claimGrams p cs D cur hparts.2]
    by_cases hn : c.isNamed = true
    · rw [if_pos hn, if_pos hn, ast2gram_eq_claim2gram c D (cur + 1) hparts.1]
    · rw [if_neg hn, if_neg hn]
end

/-- The wrapper branch forwards to the named children at the same depth
counter. -/
theorem gramsSF_eq_claim (cs : List Node) (D cur : Nat)
    (h : ∀ c ∈ cs, sfFree c = true) :
    gramsSF cs D cur =
      ((cs.filter Node.isNamed).map fun c => claim2gram c D cur).flatten := by
  induction cs with
  | nil => rfl
  | cons c cs ih =>
    have hc := h c (List.mem_cons_self c cs)
    have ihs := ih fun x hx => h x (List.mem_cons_of_mem c hx)
    show (if c.isNamed then ast2gram c D cur else []) ++ gramsSF cs D cur = _
    by_cases hn : c.isNamed = true
    · rw [if_pos hn, List.filter_cons_of_pos hn, List.map_cons, List.flatten_cons,
        ihs, ast2gram_eq_claim2gram c D cur hc]
    · rw [if_neg hn, List.filter_cons_of_neg hn, ihs, List.nil_append]

/-- Claim C5, amended: the extraction starts with depth counter 1 at the
given root (the wrapper's children also start at counter 1), a named
node processed at counter `< D` emits one `(parentType, childType)`
token per named child and recurses at counter `+ 1`, and a node reached
at counter `≥ D` emits nothing — i.e. the code realises the claim's
procedure shifted by one depth level. -/
theorem c5_depth_bound_amended (n : Node) (b : Bool) (cs : List Node) (D cur : Nat)
    (hn : sfFree n = true) (hcs : ∀ c ∈ cs, sfFree c = true) :
    ast2gram n D cur = claim2gram n D cur ∧
    ast2gram (.mk "source_file" b cs) D cur =
      ((cs.filter Node.isNamed).map fun c => claim2gram c D cur).flatten := by
  refine ⟨ast2gram_eq_claim2gram n D cur hn, ?_⟩
  rw [show ast2gram (.mk "source_file" b cs) D cur = gramsSF cs D cur by
    simp [ast2gram]]
  exact gramsSF_eq_claim cs D cur hcs

/-- Witness for `c5_depth_bound_amended` on a two-level tree under a
wrapper. -/
theorem c5_depth_bound_amended_witness :
    sfFree (.mk "fn_item" true [.mk "block" true []]) = true ∧
    (∀ c ∈ [Node.mk "fn_item" true [.mk "block" true []]], sfFree c = true) ∧
    ast2gram (.mk "fn_item" true [.mk "block" true []]) 2 1 =
      claim2gram (.mk "fn_item" true [.mk "block" true []]) 2 1 :=
  ⟨by decide, by decide,
   (c5_depth_bound_amended (.mk "fn_item" true [.mk "block" true []]) false
      [.mk "fn_item" true [.mk "block" true []]] 2 1 (by decide) (by decide)).1⟩

/-! ## Claim C9 — match/persist frame condition -/

/-- Claim C9: `match_and_save` writes a file iff it returns `True`; the
single write stores the candidate source verbatim at the given save
path, and every `False` return (depth rejection, no surviving candidate
histogram, or all scores below threshold) performs no write at all. -/
theorem c9_match_frame (sn ft : Node) (full_code save_path : String) (th : ℝ) :
    match_and_save sn ft full_code save_path th = (true, [(save_path, full_code)]) ∨
    match_and_save sn ft full_code save_path th = (false, []) := by
  unfold match_and_save
  by_cases h1 : ast_depth sn ≤ 1
  · right
    simp [h1]
  · by_cases h2 : (candidateCounters ft (ast_depth sn)).isEmpty
    · right
      simp [h1, h2]
    · by_cases h3 : ∃ s ∈ simScores sn ft, s ≥ th
      · left
        simp [h1, h2, h3]
      · right
        simp [h1, h2, h3]

/-! ## Claim C6 — similarity self-match -/

/-- The fold of `ast_depth` over the named children computes `namedDepthsMax`. -/
theorem namedDepthsMax_eq (cs : List Node) :
    namedDepthsMax cs = ((cs.filter Node.isNamed).map ast_depth).foldr max 0 := by
  induction cs with
  | nil => rfl
  | cons c cs ih =>
    by_cases hn : c.isNamed = true
    · rw [show namedDepthsMax (c :: cs) = max (ast_depth c) (namedDepthsMax cs) by
        simp [namedDepthsMax, hn],
        List.filter_cons_of_pos hn, List.map_cons, List.foldr_cons, ih]
    · rw [show namedDepthsMax (c :: cs) = namedDepthsMax cs by
        simp [namedDepthsMax, hn],
        List.filter_cons_of_neg hn, ih]

/-- The wrapper branch of the code's extraction as a flattened map over
named children. -/
theorem gramsSF_eq_flatten (cs : List Node) (D cur : Nat) :
    gramsSF cs D cur =
      ((cs.filter Node.isNamed).map fun c => ast2gram c D cur).flatten := by
  induction cs with
  | nil => rfl
  | cons c cs ih =>
    show (if c.isNamed then ast2gram c D cur else []) ++ gramsSF cs D cur = _
    by_cases hn : c.isNamed = true
    · rw [if_pos hn, List.filter_cons_of_pos hn, List.map_cons, List.flatten_cons, ih]
    · rw [if_neg hn, List.filter_cons_of_neg hn, ih, List.nil_append]

/-- A named child's bigram is among the emitted tokens. -/
theorem grams_bigram_mem (p : String) (cs : List Node) (D cur : Nat) (c : Node)
    (hc : c ∈ cs) (hn : c.isNamed = true) : (p, c.type) ∈ grams p cs D cur := by
  induction cs with
  | nil => cases hc
  | cons d ds ih =>
    rcases List.mem_cons.mp hc with h | h
    · subst h
      show (p, c.type) ∈ (if c.isNamed then (p, c.type) :: ast2gram c D (cur + 1) else []) ++
        grams p ds D cur
      rw [if_pos hn]
      exact List.mem_append_left _ (List.mem_cons_self _ _)
    · exact List.mem_append_right _ (ih h)

/-- Vocabulary membership is occurrence in some corpus document. -/
theorem mem_vocab (docs : List (List String)) (t : String) :
    t ∈ vocab docs ↔ ∃ d ∈ docs, t ∈ d := by
  unfold vocab
  rw [List.mem_toFinset]
  induction docs with
  | nil => simp
  | cons d ds ih =>
    simp only [List.foldr_cons, List.mem_append, ih, List.mem_cons]
    constructor
    · rintro (h | ⟨e, he, ht⟩)
      · exact ⟨d, Or.inl rfl, h⟩
      · exact ⟨e, Or.inr he, ht⟩
    · rintro ⟨e, (rfl | he), ht⟩
      · exact Or.inl ht
      · exact Or.inr ⟨e, he, ht⟩

/-- The smoothed IDF is at least 1. -/
theorem idf_ge_one (docs : List (List String)) (t : String) : 1 ≤ idf docs t := by
  unfold idf
  have hdf : (df docs t : ℝ) ≤ (docs.length : ℝ) := by
    exact_mod_cast List.countP_le_length _
  have h0 : (0 : ℝ) < 1 + (df docs t : ℝ) := by positivity
  have hlog : 0 ≤ Real.log ((1 + (docs.length : ℝ)) / (1 + (df docs t : ℝ))) :=
    Real.log_nonneg ((one_le_div₀ h0).mpr (by linarith))
  linarith

/-- A TF-IDF self inner product is nonnegative. -/
theorem dotW_self_nonneg (docs : List (List String)) (d : List String) :
    0 ≤ dotW docs d d :=
  Finset.sum_nonneg fun _ _ => mul_self_nonneg _

/-- A nonempty corpus document has positive self inner product. -/
theorem dotW_self_pos (docs : List (List String)) (d : List String)
    (hd : d ∈ docs) (hne : d ≠ []) : 0 < dotW docs d d := by
  obtain ⟨t0, ht0⟩ := List.exists_mem_of_ne_nil d hne
  apply Finset.sum_pos' (fun t _ => mul_self_nonneg _)
  refine ⟨t0, (mem_vocab docs t0).mpr ⟨d, hd, ht0⟩, ?_⟩
  have htf : (0 : ℝ) < (tf d t0 : ℝ) := by
    exact_mod_cast List.count_pos_iff.mpr ht0
  have hidf : (0 : ℝ) < idf docs t0 := lt_of_lt_of_le one_pos (idf_ge_one docs t0)
  have hw : 0 < tfidfWeight docs d t0 := mul_pos htf hidf
  exact mul_pos hw hw

/-- Cosine similarity of a document with itself is exactly 1 once its
vector is nonzero. -/
theorem cosineSim_self (docs : List (List String)) (d : List String)
    (h : 0 < dotW docs d d) : cosineSim docs d d = 1 := by
  unfold cosineSim
  rw [Real.mul_self_sqrt h.le]
  exact div_self h.ne'

/-- Cosine similarity never exceeds 1 (Cauchy-Schwarz; a zero vector
scores 0). -/
theorem cosineSim_le_one (docs : List (List String)) (d e : List String) :
    cosineSim docs d e ≤ 1 := by
  have hcs : dotW docs d e ≤
      Real.sqrt (dotW docs d d) * Real.sqrt (dotW docs e e) := by
    unfold dotW
    have hb := Real.sum_mul_le_sqrt_mul_sqrt (vocab docs)
      (fun t => tfidfWeight docs d t) (fun t => tfidfWeight docs e t)
    simpa [pow_two] using hb
  have hden : 0 ≤ Real.sqrt (dotW docs d d) * Real.sqrt (dotW docs e e) :=
    mul_nonneg (Real.sqrt_nonneg _) (Real.sqrt_nonneg _)
  unfold cosineSim
  rcases eq_or_lt_of_le hden with h0 | h0
  · rw [← h0, div_zero]
    norm_num
  · exact (div_le_one h0).mpr hcs

/-- Members bound a `foldr max` from below. -/
theorem le_foldr_max (l : List ℝ) (a b : ℝ) (h : a ∈ l) : a ≤ l.foldr max b := by
  induction l with
  | nil => cases h
  | cons x xs ih =>
    rcases List.mem_cons.mp h with h | h
    · subst h
      exact le_max_left _ _
    · exact le_trans (ih h) (le_max_right _ _)

/-- A `foldr max` over bounded elements is bounded. -/
theorem foldr_max_le (l : List ℝ) (b c : ℝ) (hb : b ≤ c) (h : ∀ a ∈ l, a ≤ c) :
    l.foldr max b ≤ c := by
  induction l with
  | nil => exact hb
  | cons x xs ih =>
    exact max_le (h x (List.mem_cons_self x xs))
      (ih fun a ha => h a (List.mem_cons_of_mem x ha))

/-- Claim C6: a snippet of structural depth `> 1` whose single top-level
item recurs verbatim as a named subtree of the candidate scores an exact
cosine similarity of 1, no subtree scores more, the file's overall score
(the maximum) is 1, and the matcher fires at the default threshold 0.6,
saving the candidate source. -/
theorem c6_self_match (b : Bool) (cs : List Node) (S ft : Node)
    (full_code save_path : String)
    (hnc : cs.filter Node.isNamed = [S])
    (hS : ¬(S.type = "source_file"))
    (hd : 2 ≤ ast_depth (Node.mk "source_file" b cs))
    (hmem : S ∈ collect_candidate_roots ft) :
    (∀ s ∈ simScores (Node.mk "source_file" b cs) ft, s ≤ 1) ∧
    ((1 : ℝ) ∈ simScores (Node.mk "source_file" b cs) ft) ∧
    (simScores (Node.mk "source_file" b cs) ft).foldr max 0 = 1 ∧
    match_and_save (Node.mk "source_file" b cs) ft full_code save_path (0.6 : ℝ) =
      (true, [(save_path, full_code)]) := by
  obtain ⟨tS, bS, csS⟩ := S
  simp only [Node.type] at hS
  set sn := Node.mk "source_file" b cs with hsn
  set d := ast_depth sn with hdd
  have hsnd : ast_depth sn = namedDepthsMax cs := by
    rw [hsn]
    simp [ast_depth]
  have hdS : ast_depth (Node.mk tS bS csS) = d := by
    rw [hdd, hsnd, namedDepthsMax_eq, hnc]
    simp
  have hscS : snippetCounter sn = ast2gram (Node.mk tS bS csS) d 1 := by
    show ast2gram sn (ast_depth sn) 1 = _
    rw [← hdd, hsn]
    rw [show ast2gram (Node.mk "source_file" b cs) d 1 = gramsSF cs d 1 by
      simp [ast2gram]]
    rw [gramsSF_eq_flatten, hnc]
    simp
  have hd2 : 2 ≤ ast_depth (Node.mk tS bS csS) := by
    rw [hdS]
    exact hd
  have hany : csS.any Node.isNamed = true := by
    by_contra hno
    have hno' : csS.any Node.isNamed = false := by
      revert hno
      cases csS.any Node.isNamed <;> simp
    have h1 : ast_depth (Node.mk tS bS csS) = 1 := by
      simp [ast_depth, hS, hno']
    omega
  obtain ⟨c0, hc0, hc0n⟩ := List.any_eq_true.mp hany
  have hge : ¬(1 ≥ d) := by omega
  have hSgram : ast2gram (Node.mk tS bS csS) d 1 = grams tS csS d 1 := by
    simp [ast2gram, hS, hge]
  have hne : ast2gram (Node.mk tS bS csS) d 1 ≠ [] := by
    rw [hSgram]
    exact List.ne_nil_of_mem (grams_bigram_mem tS csS d 1 c0 hc0 hc0n)
  have hcand : ast2gram (Node.mk tS bS csS) d 1 ∈ candidateCounters ft d := by
    apply List.mem_filter.mpr
    refine ⟨List.mem_map.mpr ⟨Node.mk tS bS csS, hmem, rfl⟩, ?_⟩
    simp only [Bool.not_eq_true']
    cases hcase : ast2gram (Node.mk tS bS csS) d 1 with
    | nil => exact absurd hcase hne
    | cons x xs => rfl
  set docs := corpusDocs sn ft with hdocs
  set sdoc := counter_to_doc (snippetCounter sn) with hsdoc
  have hdocmem : sdoc ∈ docs := by
    rw [hdocs, hsdoc]
    exact List.mem_cons_self _ _
  have hsdocne : sdoc ≠ [] := by
    rw [hsdoc, hscS]
    simp only [counter_to_doc, ne_eq, List.map_eq_nil_iff]
    exact hne
  have hpos := dotW_self_pos docs sdoc hdocmem hsdocne
  have hone := cosineSim_self docs sdoc hpos
  have hsmem : (1 : ℝ) ∈ simScores sn ft := by
    unfold simScores
    apply List.mem_map.mpr
    refine ⟨ast2gram (Node.mk tS bS csS) d 1, ?_, ?_⟩
    · rw [← hdd]
      exact hcand
    · rw [← hscS, ← hdocs, ← hsdoc]
      exact hone
  have hall : ∀ s ∈ simScores sn ft, s ≤ 1 := by
    intro s hs
    unfold simScores at hs
    obtain ⟨c, _, rfl⟩ := List.mem_map.mp hs
    exact cosineSim_le_one _ _ _
  have hfold : (simScores sn ft).foldr max 0 = 1 :=
    le_antisymm (foldr_max_le _ 0 1 (by norm_num) hall) (le_foldr_max _ 1 0 hsmem)
  refine ⟨hall, hsmem, hfold, ?_⟩
  have hnotd : ¬(ast_depth sn ≤ 1) := by
    rw [← hdd]
    omega
  have hccne : ¬((candidateCounters ft (ast_depth sn)).isEmpty = true) := by
    rw [← hdd]
    intro hemp
    rw [List.isEmpty_iff.mp hemp] at hcand
    cases hcand
  have hex : ∃ s ∈ simScores sn ft, s ≥ (0.6 : ℝ) := ⟨1, hsmem, by norm_num⟩
  unfold match_and_save
  rw [if_neg hnotd, if_neg hccne, if_pos hex]

/-- Witness for `c6_self_match`: the snippet `if a > b { ... }` shape
embedded under a function item of the candidate file. -/
theorem c6_self_match_witness :
    ([Node.mk "if_expression" true [.mk "binary_expression" true []]].filter
        Node.isNamed = [Node.mk "if_expression" true [.mk "binary_expression" true []]]) ∧
    ¬((Node.mk "if_expression" true [.mk "binary_expression" true []]).type =
        "source_file") ∧
    2 ≤ ast_depth (Node.mk "source_file" false
        [Node.mk "if_expression" true [.mk "binary_expression" true []]]) ∧
    Node.mk "if_expression" true [.mk "binary_expression" true []] ∈
      collect_candidate_roots (.mk "source_file" false
        [.mk "function_item" true
          [.mk "if_expression" true [.mk "binary_expression" true []]]]) ∧
    match_and_save
        (.mk "source_file" false
          [.mk "if_expression" true [.mk "binary_expression" true []]])
        (.mk "source_file" false
          [.mk "function_item" true
            [.mk "if_expression" true [.mk "binary_expression" true []]]])
        "fn main demo source" "matched_full_code.rs" (0.6 : ℝ) =
      (true, [("matched_full_code.rs", "fn main demo source")]) :=
  ⟨by decide, by decide, by decide, by decide,
   (c6_self_match false
      [Node.mk "if_expression" true [.mk "binary_expression" true []]]
      (Node.mk "if_expression" true [.mk "binary_expression" true []])
      (.mk "source_file" false
        [.mk "function_item" true
          [.mk "if_expression" true [.mk "binary_expression" true []]]])
      "fn main demo source" "matched_full_code.rs"
      (by decide) (by decide) (by decide) (by decide)).2.2.2⟩
